import Mathlib

/-!
Verification development for a Rust path-tracing renderer (ray-tracer).

The Rust code works on `f32`; this development embeds the arithmetic over
the exact rationals `ℚ` (the standard idealized-arithmetic shallow
embedding), so numeric literals such as `0.0001` become the exact rational
`1/10000`.  Where IEEE-754 infinities are semantically load-bearing
(`Interval::UNIVERSE`, the `-1/0` density of `ConstantMedium`), an explicit
extended-rational type `FExt` with the IEEE ordering/arithmetic on infinities
is used instead; the slab test of `Aabb::hit`, whose treatment of
axis-parallel rays relies on `1.0/0.0 = inf` and on NaN-ignoring
`f32::max`/`f32::min`, is modelled over the dedicated `F32x` type that has
both infinities and NaN.  Division by zero of finite rationals is otherwise
not exercised by any theorem below.

Transcendental operations (`sin`, `cos`, `tan`, `ln`, `sqrt`/`normalize`)
have no exact rational counterpart; the few places that need them take the
already-computed value as an explicit parameter (e.g. `RotateY` stores
`sin_theta`/`cos_theta` as fields in the Rust source as well, and the random
free-path sampling of `ConstantMedium` consumes `ln(random())`, which is
modelled as an arbitrary value `< 0`, the exact range of `ln` on `[0,1)`).
-/

/-- 3-component rational vector, modelling `bevy_math::Vec3` (`f32` fields). -/
structure Vec3q where
  x : ℚ
  y : ℚ
  z : ℚ
deriving DecidableEq

/-- 2-component rational vector, modelling `bevy_math::Vec2`. -/
structure Vec2q where
  x : ℚ
  y : ℚ
deriving DecidableEq

instance : Add Vec3q := ⟨fun a b => ⟨a.x + b.x, a.y + b.y, a.z + b.z⟩⟩

instance : Sub Vec3q := ⟨fun a b => ⟨a.x - b.x, a.y - b.y, a.z - b.z⟩⟩

instance : Neg Vec3q := ⟨fun a => ⟨-a.x, -a.y, -a.z⟩⟩

/-- Componentwise product (used for color modulation, `attenuation * color`). -/
instance : Mul Vec3q := ⟨fun a b => ⟨a.x * b.x, a.y * b.y, a.z * b.z⟩⟩

/-- Scalar multiplication `q * v` on vectors. -/
def smulV (q : ℚ) (v : Vec3q) : Vec3q := ⟨q * v.x, q * v.y, q * v.z⟩

/-- Dot product, modelling `Vec3::dot`. -/
def dotq (a b : Vec3q) : ℚ := a.x * b.x + a.y * b.y + a.z * b.z

/-- The zero vector `Vec3::ZERO`. -/
def vzero : Vec3q := ⟨0, 0, 0⟩

/-- Model of `Ray` (src/lib.rs): origin, direction, time of cast. -/
structure Ray3 where
  origin : Vec3q
  direction : Vec3q
  time : ℚ
deriving DecidableEq

/-- `Ray::get_point`: `origin + direction * distance`. -/
def Ray3.getPoint (r : Ray3) (distance : ℚ) : Vec3q :=
  r.origin + smulV distance r.direction

/-- Model of `Interval` (src/lib.rs), a `Range<f32>` with fields
`start`/`end`; the `end` field is named `stop` because `end` is reserved
in Lean. -/
structure IntervalQ where
  start : ℚ
  stop : ℚ
deriving DecidableEq

/-- `Interval::expand(delta)`: symmetric padding by `delta / 2`. -/
def IntervalQ.expand (i : IntervalQ) (delta : ℚ) : IntervalQ :=
  ⟨i.start - delta / 2, i.stop + delta / 2⟩

/-- `Interval::join`: `(min start, max end)`. -/
def joinI (a b : IntervalQ) : IntervalQ :=
  ⟨min a.start b.start, max a.stop b.stop⟩

/-- `Interval::size`: `end - start`. -/
def IntervalQ.size (i : IntervalQ) : ℚ := i.stop - i.start

/-- `Interval::default()`: the degenerate range `0.0..0.0`. -/
def intervalDefault : IntervalQ := ⟨0, 0⟩

/-- Model of `Aabb` (src/mesh.rs): one interval per axis. -/
structure Aabb where
  x : IntervalQ
  y : IntervalQ
  z : IntervalQ
deriving DecidableEq

/-- `Aabb::pad_to_minimus`: pad an axis interval of size below `0.0001` to
that minimum thickness. -/
def padToMinimus (i : IntervalQ) : IntervalQ :=
  if i.size < 1/10000 then i.expand (1/10000) else i

/-- `Aabb::new`: pads every axis interval to the minimum thickness. -/
def aabbNew (x y z : IntervalQ) : Aabb :=
  ⟨padToMinimus x, padToMinimus y, padToMinimus z⟩

/-- `Aabb::default()`: three default (degenerate `0..0`) intervals; the
`derive(Default)` on `Aabb` does not pad. -/
def aabbDefault : Aabb := ⟨intervalDefault, intervalDefault, intervalDefault⟩

/-- `Aabb::from_extremes`: per-axis ordered interval between two corners. -/
def aabbFromExtremes (a b : Vec3q) : Aabb :=
  aabbNew
    (if a.x ≤ b.x then ⟨a.x, b.x⟩ else ⟨b.x, a.x⟩)
    (if a.y ≤ b.y then ⟨a.y, b.y⟩ else ⟨b.y, a.y⟩)
    (if a.z ≤ b.z then ⟨a.z, b.z⟩ else ⟨b.z, a.z⟩)

/-- `Aabb::merge`: per-axis join, re-padded by `Aabb::new`. -/
def mergeA (a b : Aabb) : Aabb :=
  aabbNew (joinI a.x b.x) (joinI a.y b.y) (joinI a.z b.z)

/-- `Index<usize> for Aabb`: axis 0/1/2 ↦ x/y/z.  The Rust code panics on
any other index; the model returns `z`, and no definition below applies it
outside `0/1/2`. -/
def axisGet (b : Aabb) (n : Nat) : IntervalQ :=
  match n with
  | 0 => b.x
  | 1 => b.y
  | _ => b.z

/-- `Aabb::longest_axis`: `if x > y && x > z { 0 } else if y > z { 1 } else
{ 2 }` on the per-axis extents `end - start`. -/
def longestAxis (b : Aabb) : Nat :=
  let x := b.x.stop - b.x.start
  let y := b.y.stop - b.y.start
  let z := b.z.stop - b.z.start
  if x > y ∧ x > z then 0
  else if y > z then 1
  else 2

/-- The per-axis extent used by `Aabb::longest_axis`. -/
def extentA (b : Aabb) (n : Nat) : ℚ := (axisGet b n).stop - (axisGet b n).start

/-!  The slab test of `Aabb::hit` works on raw `f32` arithmetic and its
correctness for axis-parallel rays relies on IEEE-754 special values:
`adinv = 1.0 / dir` is `+inf` for `dir == 0`, the products
`(bound - origin) * adinv` are `±inf` (or NaN when the origin sits exactly
on a slab bound), `<` is false on NaN, and `f32::max`/`f32::min` ignore a
NaN argument.  The type `F32x` models an `f32` value exactly at this level:
a finite rational, the two infinities, or NaN, with the IEEE comparison,
multiplication and NaN-ignoring max/min used by the slab test.  (A zero
direction component is modelled as `+0`, hence `1/0 = +inf`; ℚ has no
negative zero.) -/

/-- An `f32` value as consumed by the slab test: NaN, `-inf`, a finite
rational, or `+inf`. -/
inductive F32x where
  | nan : F32x
  | ninf : F32x
  | fin (q : ℚ) : F32x
  | pinf : F32x
deriving DecidableEq

/-- IEEE `<` on `f32`: false whenever either operand is NaN. -/
def F32x.blt : F32x → F32x → Bool
  | .nan, _ => false
  | _, .nan => false
  | .ninf, .ninf => false
  | .ninf, _ => true
  | .fin _, .ninf => false
  | .fin a, .fin b => decide (a < b)
  | .fin _, .pinf => true
  | .pinf, _ => false

/-- IEEE multiplication: `0 * ±inf = NaN`, infinities multiply by sign, NaN
propagates. -/
def F32x.mul : F32x → F32x → F32x
  | .nan, _ => .nan
  | _, .nan => .nan
  | .fin a, .fin b => .fin (a * b)
  | .fin a, .pinf => if 0 < a then .pinf else if a < 0 then .ninf else .nan
  | .fin a, .ninf => if 0 < a then .ninf else if a < 0 then .pinf else .nan
  | .pinf, .fin b => if 0 < b then .pinf else if b < 0 then .ninf else .nan
  | .ninf, .fin b => if 0 < b then .ninf else if b < 0 then .pinf else .nan
  | .pinf, .pinf => .pinf
  | .pinf, .ninf => .ninf
  | .ninf, .pinf => .ninf
  | .ninf, .ninf => .pinf

/-- `&Aabb + Vec3`: shift every axis interval (no re-padding). -/
def aabbAdd (b : Aabb) (v : Vec3q) : Aabb :=
  ⟨⟨b.x.start + v.x, b.x.stop + v.x⟩,
   ⟨b.y.start + v.y, b.y.stop + v.y⟩,
   ⟨b.z.start + v.z, b.z.stop + v.z⟩⟩

/-- Model of `Hit` (src/mesh.rs), polymorphic in the material payload. -/
structure Hit (M : Type) where
  point : Vec3q
  normal : Vec3q
  distance : ℚ
  front_face : Bool
  material : M
  uv : Vec2q

/-- `Hit::new`: computes the local `front_face = ray.direction.dot(normal) < 0.`,
orients the stored normal with it, but stores the literal `true` in the
`front_face` field — exactly as the Rust source does. -/
def hitNew {M : Type} (ray : Ray3) (distance : ℚ) (normal : Vec3q)
    (material : M) (uv : Vec2q) : Hit M :=
  let front_face := dotq ray.direction normal < 0
  let point := ray.getPoint distance
  { point := point
    normal := if front_face then normal else -normal
    distance := distance
    front_face := true
    material := material
    uv := uv }

/-!  The extended rationals `FExt`: `f32` values including the two IEEE infinities.
NaN never arises on the code paths any theorem below exercises (the one
IEEE NaN-producing case, `0 * ∞`, is mapped to `0` and is provably
unreachable in those theorems). -/

/-- An `f32`-like value: `-inf`, a finite rational, or `+inf`. -/
inductive FExt where
  | ninf : FExt
  | fin (q : ℚ) : FExt
  | pinf : FExt
deriving DecidableEq

/-- IEEE `<` on extended values (no NaN). -/
def FExt.blt : FExt → FExt → Bool
  | .ninf, .ninf => false
  | .ninf, _ => true
  | .fin _, .ninf => false
  | .fin a, .fin b => decide (a < b)
  | .fin _, .pinf => true
  | .pinf, _ => false

/-- IEEE multiplication on extended values; `0 * ±inf` (IEEE NaN) is mapped
to `0`, a case no theorem below reaches. -/
def FExt.mul : FExt → FExt → FExt
  | .fin a, .fin b => .fin (a * b)
  | .fin a, .pinf => if 0 < a then .pinf else if a < 0 then .ninf else .fin 0
  | .fin a, .ninf => if 0 < a then .ninf else if a < 0 then .pinf else .fin 0
  | .pinf, .fin b => if 0 < b then .pinf else if b < 0 then .ninf else .fin 0
  | .pinf, .pinf => .pinf
  | .pinf, .ninf => .ninf
  | .ninf, .fin b => if 0 < b then .ninf else if b < 0 then .pinf else .fin 0
  | .ninf, .pinf => .ninf
  | .ninf, .ninf => .pinf

/-- IEEE subtraction on extended values; `∞ - ∞` (IEEE NaN) is mapped to
`0`, a case no theorem below reaches. -/
def FExt.sub : FExt → FExt → FExt
  | .fin a, .fin b => .fin (a - b)
  | .fin _, .pinf => .ninf
  | .fin _, .ninf => .pinf
  | .pinf, .pinf => .fin 0
  | .pinf, _ => .pinf
  | .ninf, .ninf => .fin 0
  | .ninf, _ => .ninf

/-- IEEE addition on extended values; `∞ + (-∞)` is mapped to `0`, a case no
theorem below reaches. -/
def FExt.add : FExt → FExt → FExt
  | .fin a, .fin b => .fin (a + b)
  | .fin _, .pinf => .pinf
  | .fin _, .ninf => .ninf
  | .pinf, .ninf => .fin 0
  | .pinf, _ => .pinf
  | .ninf, .pinf => .fin 0
  | .ninf, _ => .ninf

/-- IEEE division on extended values.  A nonzero finite value divided by
(positive) zero yields the signed infinity, as in `-1.0 / 0.0 = -inf`;
`0/0` and `∞/∞` (IEEE NaN) are mapped to `0`, cases no theorem below
reaches. -/
def FExt.div : FExt → FExt → FExt
  | .fin a, .fin b =>
    if b = 0 then (if a < 0 then .ninf else if 0 < a then .pinf else .fin 0)
    else .fin (a / b)
  | .fin _, .pinf => .fin 0
  | .fin _, .ninf => .fin 0
  | .pinf, .fin b => if b < 0 then .ninf else .pinf
  | .ninf, .fin b => if b < 0 then .pinf else .ninf
  | _, _ => .fin 0

/-- An interval whose bounds may be infinite (`Interval::UNIVERSE` is
`f32::NEG_INFINITY..f32::INFINITY`). -/
structure IntervalE where
  start : FExt
  stop : FExt

/-- `Interval::UNIVERSE`. -/
def intervalUniverse : IntervalE := ⟨FExt.ninf, FExt.pinf⟩

/-- Model of `Scatter` (src/material.rs): attenuation color + outgoing ray.
Colors are modelled as 3-component rational vectors. -/
structure ScatterM where
  attenuation : Vec3q
  scattered : Ray3
deriving DecidableEq

/-- Model of `Translate::<T>::hit` (src/mesh.rs): shift the ray origin by
`-offset`, delegate to the wrapped object's hit function, shift the hit
point back by `+offset`. -/
def translateHit {M : Type} (offset : Vec3q)
    (objHit : Ray3 → IntervalQ → Option (Hit M))
    (ray : Ray3) (ray_t : IntervalQ) : Option (Hit M) :=
  match objHit ⟨ray.origin - offset, ray.direction, ray.time⟩ ray_t with
  | some hit => some { hit with point := hit.point + offset }
  | none => none

/-- Model of `RotateY::<T>::hit` (src/mesh.rs).  `sin_theta`/`cos_theta` are
the fields the Rust struct stores (computed once from the angle in
`RotateY::new`).  The incoming ray is transformed by reading the original
`ray.origin`/`ray.direction`; but on the way back the source mutates the hit
point in place, so `hit.point[2]` is computed from the freshly OVERWRITTEN
`hit.point[0]` — the model reproduces that aliasing exactly, as well as the
source's use of the same (not the inverse) rotation on the way back. -/
def rotateYHit {M : Type} (sin_theta cos_theta : ℚ)
    (objHit : Ray3 → IntervalQ → Option (Hit M))
    (ray : Ray3) (ray_t : IntervalQ) : Option (Hit M) :=
  let origin : Vec3q :=
    ⟨cos_theta * ray.origin.x - sin_theta * ray.origin.z, ray.origin.y,
     sin_theta * ray.origin.x + cos_theta * ray.origin.z⟩
  let direction : Vec3q :=
    ⟨cos_theta * ray.direction.x - sin_theta * ray.direction.z, ray.direction.y,
     sin_theta * ray.direction.x + cos_theta * ray.direction.z⟩
  match objHit ⟨origin, direction, ray.time⟩ ray_t with
  | some hit =>
    let p0 := cos_theta * hit.point.x - sin_theta * hit.point.z
    let p2 := sin_theta * p0 + cos_theta * hit.point.z
    let n0 := cos_theta * hit.normal.x - sin_theta * hit.normal.z
    let n2 := sin_theta * n0 + cos_theta * hit.normal.z
    some { hit with point := ⟨p0, hit.point.y, p2⟩, normal := ⟨n0, hit.normal.y, n2⟩ }
  | none => none

/-- The inverse of the map `RotateY::hit` applies to the incoming ray's
origin and direction (that map is `(x, z) ↦ (c x - s z, s x + c z)`; for
`s² + c² = 1` its inverse is `(x, z) ↦ (c x + s z, -s x + c z)`).  Used to
state the round-trip claim. -/
def rotInv (sin_theta cos_theta : ℚ) (v : Vec3q) : Vec3q :=
  ⟨cos_theta * v.x + sin_theta * v.z, v.y, -sin_theta * v.x + cos_theta * v.z⟩

/-- `reflect` (src/material.rs): `v - 2 * v.dot(n) * n`. -/
def reflect (v n : Vec3q) : Vec3q := v - smulV (2 * dotq v n) n

/-- Model of `Metal::<T>::scatter` (src/material.rs).  `texture` is the
wrapped texture's `value` function; `randUnit` is the sampled
`random_unit_vec` value for this call.  The hit's material payload is
irrelevant to `scatter`, hence `Hit Unit`. -/
def metalScatter (texture : Vec2q → Vec3q → Vec3q) (roughness : ℚ)
    (randUnit : Vec3q) (ray : Ray3) (hit : Hit Unit) : Option ScatterM :=
  let reflected := reflect ray.direction hit.normal + smulV roughness randUnit
  let scattered : Ray3 := ⟨hit.point, reflected, ray.time⟩
  if 0 < dotq scattered.direction hit.normal then
    some ⟨texture hit.uv hit.point, scattered⟩
  else none

/-- Model of `Camera::ray_color` (src/camera.rs).  Parameters model the
dynamic dispatch and the one transcendental operation:
* `scat m ray hit` is material `m`'s `scatter` (with its random draws fixed),
* `world` is the scene's `Mesh::hit` (note `f32::INFINITY` as the interval's
  upper bound, hence an `IntervalE`),
* `normY v` is `v.normalize().y` (the only use of the normalized direction).
The recursion is exactly the source's: black at exhausted depth, a
hard-coded sky gradient on a miss, `attenuation * recurse` on a scatter, and
black (not the material's emitted radiance) on a non-scattering hit. -/
def rayColor {M : Type} (scat : M → Ray3 → Hit M → Option ScatterM)
    (world : Ray3 → IntervalE → Option (Hit M)) (normY : Vec3q → ℚ)
    (ray : Ray3) (depth : ℤ) : Vec3q :=
  if depth ≤ 0 then vzero
  else
    match world ray ⟨FExt.fin (1/1000), FExt.pinf⟩ with
    | some hit =>
      match scat hit.material ray hit with
      | some sc => sc.attenuation * rayColor scat world normY sc.scattered (depth - 1)
      | none => vzero
    | none =>
      let a := (1/2) * (normY ray.direction + 1)
      smulV (1 - a) ⟨1, 1, 1⟩ + smulV a ⟨1/2, 7/10, 1⟩
termination_by depth.toNat
decreasing_by omega

/-- Model of the `Camera` fields used by `get_ray` (src/camera.rs). -/
structure CameraM where
  center : Vec3q
  pixel00_loc : Vec3q
  pixel_delta_u : Vec3q
  pixel_delta_v : Vec3q
  defocus_disk_u : Vec3q
  defocus_disk_v : Vec3q
  defocus_angle : ℚ
deriving DecidableEq

/-- `Camera::defocus_disk_sample` with the sampled unit-disk point `p`
passed explicitly: `center + p.x * defocus_disk_u + p.y * defocus_disk_v`. -/
def defocusDiskSample (c : CameraM) (p : Vec2q) : Vec3q :=
  c.center + smulV p.x c.defocus_disk_u + smulV p.y c.defocus_disk_v

/-- Model of `Camera::get_ray` (src/camera.rs); `offset` is the sampled
`sample_square` jitter, `diskP` the sampled unit-disk point.  Note the
source constructs `Ray::new(self.center, pixel_sample - ray_origin)`:
`self.center` — not the computed `ray_origin` — is passed as the ray's
origin (and no time argument is given; the model uses 0). -/
def getRay (c : CameraM) (offset : Vec3q) (diskP : Vec2q) (x y : ℤ) : Ray3 :=
  let pixel_sample := c.pixel00_loc
    + smulV ((x : ℚ) + offset.x) c.pixel_delta_u
    + smulV ((y : ℚ) + offset.y) c.pixel_delta_v
  let ray_origin := if c.defocus_angle ≤ 0 then c.center else defocusDiskSample c diskP
  ⟨c.center, pixel_sample - ray_origin, 0⟩

/-- The density value `ConstantMedium::new` stores: `-1.0 / density`, with
IEEE semantics (`-1/0 = -inf`). -/
def cmDensity (density : ℚ) : FExt := FExt.div (FExt.fin (-1)) (FExt.fin density)

/-- Model of `ConstantMedium::<T>::hit` (src/mesh.rs).
* `density` is the stored `-1/density` value,
* `lnRand` is `rand::random::<f32>().ln()` for this call (`-inf` included,
  for a zero draw),
* `rayLength` is `ray.direction.length()`,
* `boundaryHit ray i` is the boundary mesh's hit, abstracted to the hit
  distance it reports (the synthesized interior hit is likewise represented
  by its distance; its remaining fields are functions of that distance).
The clamping, rejection and free-path comparison follow the source line by
line. -/
def cmHit (density lnRand : FExt) (rayLength : ℚ)
    (boundaryHit : Ray3 → IntervalE → Option ℚ) (ray : Ray3)
    (ray_t : IntervalE) : Option FExt :=
  match boundaryHit ray intervalUniverse with
  | none => none
  | some d1 =>
    match boundaryHit ray ⟨FExt.fin (d1 + 1/10000), FExt.pinf⟩ with
    | none => none
    | some d2 =>
      let h1 := if FExt.blt (FExt.fin d1) ray_t.start then ray_t.start else FExt.fin d1
      let h2 := if FExt.blt ray_t.stop (FExt.fin d2) then ray_t.stop else FExt.fin d2
      if FExt.blt h1 h2 = false then none
      else
        let h1 := if FExt.blt h1 (FExt.fin 0) then FExt.fin 0 else h1
        let distance_inside_boundary := FExt.mul (FExt.sub h2 h1) (FExt.fin rayLength)
        let hit_distance := FExt.mul density lnRand
        if FExt.blt distance_inside_boundary hit_distance then none
        else some (FExt.add h1 (FExt.div hit_distance (FExt.fin rayLength)))


/-!  Interval and box containment, used by the AABB claims and the BVH
equivalence development. -/

/-- `inner` lies within `outer` (as 1-dimensional intervals). -/
def intervalSub (inner outer : IntervalQ) : Prop :=
  outer.start ≤ inner.start ∧ inner.stop ≤ outer.stop

/-- `outer` contains `inner`, axis by axis. -/
def aabbContains (outer inner : Aabb) : Prop :=
  intervalSub inner.x outer.x ∧ intervalSub inner.y outer.y ∧ intervalSub inner.z outer.z

/-- Every axis interval has at least the `Aabb::new` padding thickness. -/
def fatAabb (b : Aabb) : Prop :=
  1/10000 ≤ b.x.size ∧ 1/10000 ≤ b.y.size ∧ 1/10000 ≤ b.z.size

/-!  The BVH and the brute-force `World` search.

`Mesh` is a trait in the source; the elements a `World` holds and a `Bvh` is
built from are `Arc<dyn Mesh>` handles.  A primitive is modelled by the
candidate hit distances it offers along a ray (`cands`) plus its bounding
box; its `hit` function returns the nearest candidate inside the query
interval — the behavior of every concrete `Mesh::hit` in the source (e.g.
`Sphere::hit` takes the smaller root if the interval contains it, else the
larger; `Quad::hit` has a single candidate). -/

/-- An abstract scene primitive: candidate hit distances per ray, plus the
bounding box reported by `Mesh::bounding_box`. -/
structure Prim where
  cands : Ray3 → List ℚ
  bbox : Aabb

/-- The `Bvh` tree: internal nodes carry left/right children and a bounding
box; the children of a node built by `Bvh::from` are either further `Bvh`
nodes or the original primitives. -/
inductive BvhT where
  | prim (p : Prim)
  | node (left right : BvhT) (bbox : Aabb)

/-- Insertion step of the stable sort modelling `slice::sort_by` with the
`total_cmp`-on-key comparator of `Bvh::from`. -/
def insertByKey (key : Prim → ℚ) (p : Prim) : List Prim → List Prim
  | [] => [p]
  | q :: rest => if key p ≤ key q then p :: q :: rest else q :: insertByKey key p rest

/-- Stable insertion sort by a rational key (`sort_by ... total_cmp`). -/
def sortByKey (key : Prim → ℚ) : List Prim → List Prim
  | [] => []
  | p :: rest => insertByKey key p (sortByKey key rest)

/-- The bounding-box fold of `Bvh::from`:
`value.iter().fold(Aabb::default(), |acc, mesh| acc.merge(mesh.bounding_box()))`. -/
def foldMerge (l : List Prim) : Aabb :=
  l.foldl (fun acc mesh => mergeA acc mesh.bbox) aabbDefault

/-- `Bvh::from` (src/mesh.rs), with an explicit recursion budget `fuel`
(the Rust recursion has no such budget; `fuel ≥ length` suffices, which is
the termination claim).  One element: both children alias that leaf.  Two:
the two leaves.  Otherwise sort by the bounding-box start on the longest
axis of the union box, split at the midpoint, recurse on both halves.  On
the empty list the Rust code recurses on empty halves forever; here the
fuel runs out and `none` results. -/
def bvhFromFuel : Nat → List Prim → Option BvhT
  | 0, _ => none
  | fuel + 1, value =>
    let bbox := foldMerge value
    let axis := longestAxis bbox
    match value with
    | [p] => some (.node (.prim p) (.prim p) bbox)
    | [p, q] => some (.node (.prim p) (.prim q) bbox)
    | _ =>
      let sorted := sortByKey (fun mesh => (axisGet mesh.bbox axis).start) value
      let mid := sorted.length / 2
      (bvhFromFuel fuel (sorted.take mid)).bind fun left =>
        (bvhFromFuel fuel (sorted.drop mid)).bind fun right =>
          some (.node left right bbox)

/-- A primitive with no candidate hits (its hit function always misses). -/
def primNoCand : Prim := ⟨fun _ => [], aabbDefault⟩

/-- A texture that is white everywhere (`SolidTexture` on white). -/
def whiteTex : Vec2q → Vec3q → Vec3q := fun _ _ => ⟨1, 1, 1⟩

/-- A concrete hit record (material payload `Unit`). -/
def c2Hit : Hit Unit := ⟨⟨0, 0, -1⟩, ⟨0, 0, 1⟩, 1, true, (), ⟨0, 0⟩⟩

/-- A world whose `hit` always reports `c2Hit`. -/
def c2World : Ray3 → IntervalE → Option (Hit Unit) := fun _ _ => some c2Hit

/-- A `DiffuseLight`-style material dispatch: `scatter` is always `None`
(src/material.rs, `DiffuseLight::scatter`). -/
def c2Scat : Unit → Ray3 → Hit Unit → Option ScatterM := fun _ _ _ => none

/-- The same material's `emitted`: the texture value, here white
(`DiffuseLight::emitted`). -/
def c2Emit : Unit → Vec2q → Vec3q → Vec3q := fun _ _ _ => ⟨1, 1, 1⟩

/-- A wrapped mesh whose `hit` always reports the fixed record below —
used to trace one concrete hit through `Translate`/`RotateY`. -/
def c4InnerHit : Hit Unit := ⟨⟨1, 0, 2⟩, ⟨1, 0, 0⟩, 7, true, (), ⟨0, 0⟩⟩

/-- The constant inner mesh. -/
def c4InnerMesh : Ray3 → IntervalQ → Option (Hit Unit) := fun _ _ => some c4InnerHit

/-- A camera with a positive defocus angle and a nontrivial defocus disk. -/
def c6Cam : CameraM :=
  ⟨⟨0, 0, 0⟩, ⟨0, 0, -1⟩, ⟨1/100, 0, 0⟩, ⟨0, 1/100, 0⟩, ⟨1, 0, 0⟩, ⟨0, 1, 0⟩, 1⟩

/-- A boundary mesh with two crossings on every ray: entering at distance 1
(when queried on the universe interval) and leaving at distance 3 (when
queried on any interval advanced past the entry). -/
def c9Boundary : Ray3 → IntervalE → Option ℚ := fun _ i =>
  match i.start with
  | FExt.ninf => some 1
  | _ => some 3

lemma intervalSub_refl (i : IntervalQ) : intervalSub i i := ⟨le_refl _, le_refl _⟩

lemma intervalSub_trans {a b c : IntervalQ} (h1 : intervalSub a b) (h2 : intervalSub b c) :
    intervalSub a c :=
  ⟨le_trans h2.1 h1.1, le_trans h1.2 h2.2⟩

lemma intervalSub_pad (i : IntervalQ) : intervalSub i (padToMinimus i) := by
  unfold padToMinimus IntervalQ.expand
  split_ifs with h
  · exact ⟨by norm_num, by norm_num⟩
  · exact intervalSub_refl i

lemma intervalSub_join_left (a b : IntervalQ) : intervalSub a (joinI a b) :=
  ⟨min_le_left _ _, le_max_left _ _⟩

lemma intervalSub_join_right (a b : IntervalQ) : intervalSub b (joinI a b) :=
  ⟨min_le_right _ _, le_max_right _ _⟩

lemma mergeA_contains_left (a b : Aabb) : aabbContains (mergeA a b) a :=
  ⟨intervalSub_trans (intervalSub_join_left _ _) (intervalSub_pad _),
   intervalSub_trans (intervalSub_join_left _ _) (intervalSub_pad _),
   intervalSub_trans (intervalSub_join_left _ _) (intervalSub_pad _)⟩

lemma mergeA_contains_right (a b : Aabb) : aabbContains (mergeA a b) b :=
  ⟨intervalSub_trans (intervalSub_join_right _ _) (intervalSub_pad _),
   intervalSub_trans (intervalSub_join_right _ _) (intervalSub_pad _),
   intervalSub_trans (intervalSub_join_right _ _) (intervalSub_pad _)⟩

lemma padToMinimus_of_fat {i : IntervalQ} (h : 1/10000 ≤ i.size) : padToMinimus i = i := by
  unfold padToMinimus
  rw [if_neg (not_lt.mpr h)]

lemma size_joinI_left (a b : IntervalQ) : a.size ≤ (joinI a b).size := by
  unfold joinI IntervalQ.size
  have h1 : min a.start b.start ≤ a.start := min_le_left _ _
  have h2 : a.stop ≤ max a.stop b.stop := le_max_left _ _
  dsimp only
  linarith

lemma joinI_comm (a b : IntervalQ) : joinI a b = joinI b a := by
  unfold joinI
  rw [min_comm, max_comm]

lemma joinI_assoc (a b c : IntervalQ) : joinI (joinI a b) c = joinI a (joinI b c) := by
  unfold joinI
  dsimp only
  rw [min_assoc, max_assoc]

/-- C5 counterexample: with two degenerate (default, unpadded `0..0`-sided)
boxes and the unit cube, the two association orders of `Aabb::merge` differ,
because the intermediate `merge` pads the degenerate axes and the padding
leaks into the final box on the left-associated side only. -/
theorem aabb_merge_assoc_cex :
    mergeA (mergeA aabbDefault aabbDefault) (aabbFromExtremes ⟨0,0,0⟩ ⟨1,1,1⟩) ≠
      mergeA aabbDefault (mergeA aabbDefault (aabbFromExtremes ⟨0,0,0⟩ ⟨1,1,1⟩)) := by
  intro h
  have hx := congrArg (fun b => b.x.start) h
  norm_num [mergeA, aabbNew, padToMinimus, joinI, IntervalQ.size, IntervalQ.expand,
    aabbDefault, intervalDefault, aabbFromExtremes] at hx

/-- C5 (amended): `Aabb::merge` is commutative and its result contains both
arguments, unconditionally; it is associative on boxes whose axis intervals
all have at least the `0.0001` padding thickness (for thinner boxes the
`Aabb::new` padding of intermediate results breaks associativity, see the
counterexample). -/
theorem aabb_merge_props :
    (∀ a b : Aabb, mergeA a b = mergeA b a) ∧
    (∀ a b : Aabb, aabbContains (mergeA a b) a ∧ aabbContains (mergeA a b) b) ∧
    (∀ a b c : Aabb, fatAabb a → fatAabb b → fatAabb c →
      mergeA (mergeA a b) c = mergeA a (mergeA b c)) := by
  refine ⟨?_, ?_, ?_⟩
  · intro a b
    unfold mergeA aabbNew
    rw [joinI_comm a.x b.x, joinI_comm a.y b.y, joinI_comm a.z b.z]
  · intro a b
    exact ⟨mergeA_contains_left a b, mergeA_contains_right a b⟩
  · intro a b c ha hb hc
    have hxab : padToMinimus (joinI a.x b.x) = joinI a.x b.x :=
      padToMinimus_of_fat (le_trans ha.1 (size_joinI_left _ _))
    have hyab : padToMinimus (joinI a.y b.y) = joinI a.y b.y :=
      padToMinimus_of_fat (le_trans ha.2.1 (size_joinI_left _ _))
    have hzab : padToMinimus (joinI a.z b.z) = joinI a.z b.z :=
      padToMinimus_of_fat (le_trans ha.2.2 (size_joinI_left _ _))
    have hxbc : padToMinimus (joinI b.x c.x) = joinI b.x c.x :=
      padToMinimus_of_fat (le_trans hb.1 (size_joinI_left _ _))
    have hybc : padToMinimus (joinI b.y c.y) = joinI b.y c.y :=
      padToMinimus_of_fat (le_trans hb.2.1 (size_joinI_left _ _))
    have hzbc : padToMinimus (joinI b.z c.z) = joinI b.z c.z :=
      padToMinimus_of_fat (le_trans hb.2.2 (size_joinI_left _ _))
    unfold mergeA aabbNew
    dsimp only
    rw [hxab, hyab, hzab, hxbc, hybc, hzbc, joinI_assoc, joinI_assoc, joinI_assoc]

/-- C5 witness: the associativity part applied to three unit cubes. -/
theorem aabb_merge_props_witness :
    mergeA (mergeA (aabbFromExtremes ⟨0,0,0⟩ ⟨1,1,1⟩) (aabbFromExtremes ⟨0,0,0⟩ ⟨1,1,1⟩))
        (aabbFromExtremes ⟨0,0,0⟩ ⟨1,1,1⟩) =
      mergeA (aabbFromExtremes ⟨0,0,0⟩ ⟨1,1,1⟩)
        (mergeA (aabbFromExtremes ⟨0,0,0⟩ ⟨1,1,1⟩) (aabbFromExtremes ⟨0,0,0⟩ ⟨1,1,1⟩)) :=
  aabb_merge_props.2.2 _ _ _
    (by norm_num [fatAabb, aabbFromExtremes, aabbNew, padToMinimus, joinI,
      IntervalQ.size, IntervalQ.expand])
    (by norm_num [fatAabb, aabbFromExtremes, aabbNew, padToMinimus, joinI,
      IntervalQ.size, IntervalQ.expand])
    (by norm_num [fatAabb, aabbFromExtremes, aabbNew, padToMinimus, joinI,
      IntervalQ.size, IntervalQ.expand])

/-- C7 counterexample: on the unit cube all three extents tie for greatest,
yet `longest_axis` returns 2, not the smallest index 0. -/
theorem longest_axis_tie_cex :
    extentA (aabbFromExtremes ⟨0,0,0⟩ ⟨1,1,1⟩) 0 = extentA (aabbFromExtremes ⟨0,0,0⟩ ⟨1,1,1⟩) 1 ∧
    extentA (aabbFromExtremes ⟨0,0,0⟩ ⟨1,1,1⟩) 1 = extentA (aabbFromExtremes ⟨0,0,0⟩ ⟨1,1,1⟩) 2 ∧
    longestAxis (aabbFromExtremes ⟨0,0,0⟩ ⟨1,1,1⟩) ≠ 0 := by
  refine ⟨?_, ?_, ?_⟩
  · norm_num [extentA, axisGet, aabbFromExtremes, aabbNew, padToMinimus, joinI,
      IntervalQ.size, IntervalQ.expand]
  · norm_num [extentA, axisGet, aabbFromExtremes, aabbNew, padToMinimus, joinI,
      IntervalQ.size, IntervalQ.expand]
  · norm_num [longestAxis, aabbFromExtremes, aabbNew, padToMinimus,
      IntervalQ.size, IntervalQ.expand]

/-- C7 (amended): `longest_axis` returns an axis of greatest extent, but
ties are broken toward the LARGER axis index (z before y before x), not the
smaller one. -/
theorem longest_axis_max (b : Aabb) :
    (∀ j : ℕ, j < 3 → extentA b j ≤ extentA b (longestAxis b)) ∧
    (∀ j : ℕ, j < 3 → longestAxis b < j → extentA b j < extentA b (longestAxis b)) := by
  simp only [longestAxis]
  split_ifs with h1 h2
  · obtain ⟨hxy, hxz⟩ := h1
    refine ⟨?_, ?_⟩
    · intro j hj
      interval_cases j <;> simp only [extentA, axisGet] <;> linarith
    · intro j hj hj0
      interval_cases j <;> simp only [extentA, axisGet] <;> first | omega | linarith
  · rcases not_and_or.mp h1 with hx | hx
    · have hxy : b.x.stop - b.x.start ≤ b.y.stop - b.y.start := not_lt.mp hx
      refine ⟨?_, ?_⟩
      · intro j hj
        interval_cases j <;> simp only [extentA, axisGet] <;> linarith
      · intro j hj hj1
        interval_cases j <;> simp only [extentA, axisGet] <;> first | omega | linarith
    · have hxz : b.x.stop - b.x.start ≤ b.z.stop - b.z.start := not_lt.mp hx
      refine ⟨?_, ?_⟩
      · intro j hj
        interval_cases j <;> simp only [extentA, axisGet] <;> linarith
      · intro j hj hj1
        interval_cases j <;> simp only [extentA, axisGet] <;> first | omega | linarith
  · have hyz : b.y.stop - b.y.start ≤ b.z.stop - b.z.start := not_lt.mp h2
    rcases not_and_or.mp h1 with hx | hx
    · have hxy : b.x.stop - b.x.start ≤ b.y.stop - b.y.start := not_lt.mp hx
      refine ⟨?_, ?_⟩
      · intro j hj
        interval_cases j <;> simp only [extentA, axisGet] <;> linarith
      · intro j hj hj2
        interval_cases j
    · have hxz : b.x.stop - b.x.start ≤ b.z.stop - b.z.start := not_lt.mp hx
      refine ⟨?_, ?_⟩
      · intro j hj
        interval_cases j <;> simp only [extentA, axisGet] <;> linarith
      · intro j hj hj2
        interval_cases j

/-- C7 witness: on a box with a strictly longest x-axis, `longest_axis`
returns the maximal axis (0), which strictly dominates the later axis 2. -/
theorem longest_axis_max_witness :
    extentA (aabbFromExtremes ⟨0,0,0⟩ ⟨2,1,1⟩) 1 ≤
      extentA (aabbFromExtremes ⟨0,0,0⟩ ⟨2,1,1⟩)
        (longestAxis (aabbFromExtremes ⟨0,0,0⟩ ⟨2,1,1⟩)) ∧
    (longestAxis (aabbFromExtremes ⟨0,0,0⟩ ⟨2,1,1⟩) < 2 →
      extentA (aabbFromExtremes ⟨0,0,0⟩ ⟨2,1,1⟩) 2 <
        extentA (aabbFromExtremes ⟨0,0,0⟩ ⟨2,1,1⟩)
          (longestAxis (aabbFromExtremes ⟨0,0,0⟩ ⟨2,1,1⟩))) :=
  ⟨(longest_axis_max (aabbFromExtremes ⟨0,0,0⟩ ⟨2,1,1⟩)).1 1 (by omega),
   fun h => (longest_axis_max (aabbFromExtremes ⟨0,0,0⟩ ⟨2,1,1⟩)).2 2 (by omega) h⟩

/-!  Unfolding lemmas for the vector instances (used by concrete
evaluations). -/

lemma vadd_def (a b : Vec3q) : a + b = ⟨a.x + b.x, a.y + b.y, a.z + b.z⟩ := rfl

lemma vsub_def (a b : Vec3q) : a - b = ⟨a.x - b.x, a.y - b.y, a.z - b.z⟩ := rfl

lemma vneg_def (a : Vec3q) : -a = ⟨-a.x, -a.y, -a.z⟩ := rfl

lemma vmul_def (a b : Vec3q) : a * b = ⟨a.x * b.x, a.y * b.y, a.z * b.z⟩ := rfl

/-- C3: `Hit::new` evaluated at a ray whose direction is parallel to the
outward normal (`dot = 1 ≥ 0`).  The stored normal is flipped against the
ray as the claim states, but the stored `front_face` flag is `true` — the
source computes the local `front_face` and then stores the literal `true`,
so the claimed "flag ↔ negative dot" fails on this input. -/
theorem hit_new_front_face_eval :
    (hitNew (⟨⟨0,0,0⟩, ⟨0,0,1⟩, 0⟩ : Ray3) 1 ⟨0,0,1⟩ () ⟨0,0⟩).front_face = true ∧
    0 ≤ dotq (⟨0,0,1⟩ : Vec3q) ⟨0,0,1⟩ ∧
    (hitNew (⟨⟨0,0,0⟩, ⟨0,0,1⟩, 0⟩ : Ray3) 1 ⟨0,0,1⟩ () ⟨0,0⟩).normal = -(⟨0,0,1⟩ : Vec3q) := by
  refine ⟨rfl, by norm_num [dotq], ?_⟩
  simp only [hitNew, dotq]
  norm_num

/-- C4: the round trip through `Translate(RotateY(mesh, 90°), offset)`
evaluated on one concrete hit.  With `sin θ = 1, cos θ = 0` (a valid
rotation, last conjunct) the wrapped mesh reports the hit point `(1,0,2)`,
but undoing the translation and the rotation on the reported hit yields
`(-2,0,2)` — the source rotates the hit point back with the same (not the
inverse) rotation it applied to the ray, and computes the new z from the
already-overwritten x. -/
theorem rotate_translate_roundtrip_eval :
    (translateHit ⟨5,0,0⟩ (rotateYHit 1 0 c4InnerMesh) ⟨⟨0,0,0⟩, ⟨0,0,-1⟩, 0⟩ ⟨0, 100⟩).map
        (fun h => rotInv 1 0 (h.point - ⟨5,0,0⟩)) = some ⟨-2, 0, 2⟩ ∧
    c4InnerMesh ⟨⟨0,0,0⟩, ⟨0,0,-1⟩, 0⟩ ⟨0, 100⟩ = some c4InnerHit ∧
    c4InnerHit.point = ⟨1, 0, 2⟩ ∧
    ((⟨-2, 0, 2⟩ : Vec3q) ≠ ⟨1, 0, 2⟩) ∧
    (1 : ℚ) * 1 + 0 * 0 = 1 := by
  refine ⟨?_, rfl, rfl, by simp; norm_num, by norm_num⟩
  simp only [translateHit, rotateYHit, c4InnerMesh, c4InnerHit, rotInv, vadd_def, vsub_def,
    Option.map]
  norm_num

/-- C6: `Camera::get_ray` evaluated on a camera with `defocus_angle > 0`:
DESPITE the positive defocus angle and a defocus-disk sample distinct from
the camera center, the produced ray's origin is the camera center — the
source passes `self.center` (not the computed `ray_origin`) to `Ray::new`,
and the disk sample is instead subtracted inside the direction. -/
theorem get_ray_origin_eval :
    (getRay c6Cam vzero ⟨1/2, 0⟩ 0 0).origin = c6Cam.center ∧
    defocusDiskSample c6Cam ⟨1/2, 0⟩ ≠ c6Cam.center ∧
    0 < c6Cam.defocus_angle ∧
    (getRay c6Cam vzero ⟨1/2, 0⟩ 0 0).direction =
      c6Cam.pixel00_loc - defocusDiskSample c6Cam ⟨1/2, 0⟩ := by
  refine ⟨rfl, ?_, by norm_num [c6Cam], ?_⟩
  · simp only [defocusDiskSample, c6Cam, smulV, vadd_def]
    norm_num
  · simp only [getRay, defocusDiskSample, c6Cam, smulV, vzero, vadd_def, vsub_def]
    norm_num

/-- C8: `Metal::scatter` returns `None` exactly when the perturbed reflected
direction `reflect(incoming, normal) + roughness * random_unit_vec` has a
non-positive dot product with the hit normal; otherwise the scatter's ray
starts at the hit point with that direction and the attenuation is the
texture value at the hit. -/
theorem metal_scatter_spec (texture : Vec2q → Vec3q → Vec3q) (roughness : ℚ)
    (randUnit : Vec3q) (ray : Ray3) (hit : Hit Unit) :
    (metalScatter texture roughness randUnit ray hit = none ↔
      dotq (reflect ray.direction hit.normal + smulV roughness randUnit) hit.normal ≤ 0) ∧
    (∀ sc, metalScatter texture roughness randUnit ray hit = some sc →
      sc.scattered.direction = reflect ray.direction hit.normal + smulV roughness randUnit ∧
      sc.scattered.origin = hit.point ∧
      sc.scattered.time = ray.time ∧
      sc.attenuation = texture hit.uv hit.point) := by
  constructor
  · simp only [metalScatter]
    split_ifs with h
    · exact iff_of_false (by simp) (not_le.mpr h)
    · exact iff_of_true rfl (not_lt.mp h)
  · intro sc hsc
    simp only [metalScatter] at hsc
    split_ifs at hsc with h
    obtain rfl := Option.some.inj hsc
    exact ⟨rfl, rfl, rfl, rfl⟩

/-- C8 witness: the positive branch at a concrete mirror-reflection input
(incoming `(0,0,-1)`, normal `(0,0,1)`, roughness 0). -/
theorem metal_scatter_spec_witness :
    (⟨⟨1,1,1⟩, ⟨⟨0,0,-1⟩, ⟨0,0,1⟩, 3⟩⟩ : ScatterM).scattered.direction =
      reflect (⟨0,0,-1⟩ : Vec3q) ⟨0,0,1⟩ + smulV 0 vzero ∧
    (⟨⟨1,1,1⟩, ⟨⟨0,0,-1⟩, ⟨0,0,1⟩, 3⟩⟩ : ScatterM).scattered.origin = (⟨0,0,-1⟩ : Vec3q) ∧
    (⟨⟨1,1,1⟩, ⟨⟨0,0,-1⟩, ⟨0,0,1⟩, 3⟩⟩ : ScatterM).scattered.time = (3 : ℚ) ∧
    (⟨⟨1,1,1⟩, ⟨⟨0,0,-1⟩, ⟨0,0,1⟩, 3⟩⟩ : ScatterM).attenuation =
      whiteTex ⟨0,0⟩ ⟨0,0,-1⟩ :=
  (metal_scatter_spec whiteTex 0 vzero ⟨⟨0,0,0⟩, ⟨0,0,-1⟩, 3⟩
      ⟨⟨0,0,-1⟩, ⟨0,0,1⟩, 1, true, (), ⟨0,0⟩⟩).2
    ⟨⟨1,1,1⟩, ⟨⟨0,0,-1⟩, ⟨0,0,1⟩, 3⟩⟩
    (by simp only [metalScatter, whiteTex, reflect, dotq, smulV, vadd_def, vsub_def]
        norm_num)

/-- C2 counterexample: a world that reports a hit whose material is a
`DiffuseLight`-style emitter (scatter = `None`, emitted = white).  The claim
says `ray_color` then returns the emitted radiance (white); the source
returns black — `Camera::ray_color` never consults `Material::emitted`
(and on a miss it returns a hard-coded sky gradient, not a configurable
background). -/
theorem ray_color_claim_cex :
    rayColor c2Scat c2World (fun _ => 0) ⟨⟨0,0,0⟩, ⟨0,0,-1⟩, 0⟩ 1 = vzero ∧
    c2Emit () c2Hit.uv c2Hit.point = ⟨1, 1, 1⟩ ∧
    c2World ⟨⟨0,0,0⟩, ⟨0,0,-1⟩, 0⟩ ⟨FExt.fin (1/1000), FExt.pinf⟩ = some c2Hit ∧
    c2Scat c2Hit.material ⟨⟨0,0,0⟩, ⟨0,0,-1⟩, 0⟩ c2Hit = none ∧
    vzero ≠ (⟨1, 1, 1⟩ : Vec3q) := by
  refine ⟨?_, rfl, rfl, rfl, by simp [vzero]⟩
  rw [rayColor]
  norm_num [c2World, c2Scat]

/-- C2 (amended): the four branches `Camera::ray_color` actually has —
black when depth is exhausted; a hard-coded vertical sky gradient (between
white and `(0.5, 0.7, 1.0)` by the normalized direction's y) when there is
no intersection; `attenuation * ray_color(scattered, depth-1)` when the
material scatters; and black — not the material's emitted radiance — when
it does not scatter. -/
theorem ray_color_branches {M : Type} (scat : M → Ray3 → Hit M → Option ScatterM)
    (world : Ray3 → IntervalE → Option (Hit M)) (normY : Vec3q → ℚ)
    (ray : Ray3) (depth : ℤ) :
    (depth ≤ 0 → rayColor scat world normY ray depth = vzero) ∧
    (0 < depth → world ray ⟨FExt.fin (1/1000), FExt.pinf⟩ = none →
      rayColor scat world normY ray depth =
        smulV (1 - (1/2) * (normY ray.direction + 1)) ⟨1, 1, 1⟩ +
          smulV ((1/2) * (normY ray.direction + 1)) ⟨1/2, 7/10, 1⟩) ∧
    (∀ hit sc, 0 < depth → world ray ⟨FExt.fin (1/1000), FExt.pinf⟩ = some hit →
      scat hit.material ray hit = some sc →
      rayColor scat world normY ray depth =
        sc.attenuation * rayColor scat world normY sc.scattered (depth - 1)) ∧
    (∀ hit, 0 < depth → world ray ⟨FExt.fin (1/1000), FExt.pinf⟩ = some hit →
      scat hit.material ray hit = none →
      rayColor scat world normY ray depth = vzero) := by
  refine ⟨?_, ?_, ?_, ?_⟩
  · intro h
    rw [rayColor, if_pos h]
  · intro h hw
    rw [rayColor, if_neg (not_le.mpr h), hw]
  · intro hit sc h hw hs
    rw [rayColor, if_neg (not_le.mpr h), hw]
    dsimp only
    rw [hs]
  · intro hit h hw hs
    rw [rayColor, if_neg (not_le.mpr h), hw]
    dsimp only
    rw [hs]

/-- C2 witness: the no-scatter branch applied at depth 2 on the concrete
emitter world. -/
theorem ray_color_branches_witness :
    rayColor c2Scat c2World (fun _ => 0) ⟨⟨0,0,0⟩, ⟨0,0,-1⟩, 0⟩ 2 = vzero :=
  (ray_color_branches c2Scat c2World (fun _ => 0) ⟨⟨0,0,0⟩, ⟨0,0,-1⟩, 0⟩ 2).2.2.2 c2Hit
    (by norm_num) rfl rfl

/-!  Facts about the extended-rational operations used by `ConstantMedium`. -/

lemma bool_ne_false {b : Bool} (h : ¬ b = false) : b = true := by
  cases b
  · exact absurd rfl h
  · rfl

lemma fblt_ninf (x : FExt) : FExt.blt x FExt.ninf = false := by
  cases x <;> rfl

lemma fblt_pinf_left (x : FExt) : FExt.blt FExt.pinf x = false := by
  cases x <;> rfl

lemma cmDensity_zero : cmDensity 0 = FExt.ninf := by
  norm_num [cmDensity, FExt.div]

lemma fmul_ninf_of_neg {x : FExt} (h : FExt.blt x (FExt.fin 0) = true) :
    FExt.mul FExt.ninf x = FExt.pinf := by
  cases x with
  | ninf => rfl
  | fin q =>
    have hq : q < 0 := by simpa [FExt.blt] using h
    simp only [FExt.mul]
    rw [if_neg (by linarith), if_pos hq]
  | pinf => simp [FExt.blt] at h

/-- Both `none` branches of the free-path rejection in `ConstantMedium::hit`
collapse to `none` when the stored density is `-inf` and `ln(random()) < 0`:
the sampled free path is `+inf`, which exceeds any available (finite)
distance inside the boundary.  `h1`/`h2` stand for the interval-clamped
entry/exit distances; the exit clamp can never produce `+inf`. -/
lemma cm_tail_none (lnRand : FExt) (hln : FExt.blt lnRand (FExt.fin 0) = true)
    (rayLength : ℚ) (h1 h2 : FExt) (hh2 : h2 ≠ FExt.pinf) :
    (if FExt.blt h1 h2 = false then none
     else
      if FExt.blt
          (FExt.mul (FExt.sub h2 (if FExt.blt h1 (FExt.fin 0) then FExt.fin 0 else h1))
            (FExt.fin rayLength))
          (FExt.mul FExt.ninf lnRand) then none
      else
        some (FExt.add (if FExt.blt h1 (FExt.fin 0) then FExt.fin 0 else h1)
          (FExt.div (FExt.mul FExt.ninf lnRand) (FExt.fin rayLength)))) =
      (none : Option FExt) := by
  cases h2 with
  | pinf => exact absurd rfl hh2
  | ninf => rw [if_pos (fblt_ninf h1)]
  | fin q2 =>
    by_cases hb : FExt.blt h1 (FExt.fin q2) = false
    · rw [if_pos hb]
    · rw [if_neg hb]
      have hfin : ∃ q1 : ℚ,
          (if FExt.blt h1 (FExt.fin 0) then FExt.fin 0 else h1) = FExt.fin q1 := by
        cases h1 with
        | ninf => exact ⟨0, rfl⟩
        | pinf => exact absurd (fblt_pinf_left (FExt.fin q2)) hb
        | fin q1 =>
          by_cases hcl : FExt.blt (FExt.fin q1) (FExt.fin 0) = true
          · rw [if_pos hcl]; exact ⟨0, rfl⟩
          · rw [if_neg hcl]; exact ⟨q1, rfl⟩
      obtain ⟨q1, hq1⟩ := hfin
      rw [hq1, fmul_ninf_of_neg hln]
      simp [FExt.sub, FExt.mul, FExt.blt]

/-- C9: a `ConstantMedium` constructed with density 0 stores `-1/0 = -inf`
and never reports a hit: whatever the boundary mesh, ray, query interval
and uniform draw `u ∈ [0,1)` (so `ln u < 0`, including `ln 0 = -inf`), the
sampled free path `(-inf) * ln u = +inf` exceeds the finite distance
available inside the boundary — even when the ray crosses the boundary
twice. -/
theorem constant_medium_zero_density_none
    (lnRand : FExt) (hln : FExt.blt lnRand (FExt.fin 0) = true)
    (rayLength : ℚ) (boundaryHit : Ray3 → IntervalE → Option ℚ)
    (ray : Ray3) (ray_t : IntervalE) :
    cmHit (cmDensity 0) lnRand rayLength boundaryHit ray ray_t = none := by
  rcases hb1 : boundaryHit ray intervalUniverse with _ | d1
  · simp only [cmHit, hb1]
  rcases hb2 : boundaryHit ray ⟨FExt.fin (d1 + 1/10000), FExt.pinf⟩ with _ | d2
  · simp only [cmHit, cmDensity_zero, hb1, hb2]
  simp only [cmHit, cmDensity_zero, hb1, hb2]
  apply cm_tail_none lnRand hln rayLength
  by_cases hte : FExt.blt ray_t.stop (FExt.fin d2) = true
  · rw [if_pos hte]
    intro hstop
    rw [hstop, fblt_pinf_left] at hte
    exact absurd hte (by simp)
  · rw [if_neg hte]
    intro hfd
    cases hfd

/-- C9 witness: a boundary with two crossings (entry distance 1 on the
universe query, exit distance 3 on the advanced query), draw `u = 1/e`
(`ln u = -1`), unit-length direction, query interval `[0, +inf)`:
no interior hit. -/
theorem constant_medium_zero_density_none_witness :
    cmHit (cmDensity 0) (FExt.fin (-1)) 1 c9Boundary ⟨⟨0,0,0⟩, ⟨0,0,1⟩, 0⟩
        ⟨FExt.fin 0, FExt.pinf⟩ = none ∧
    c9Boundary ⟨⟨0,0,0⟩, ⟨0,0,1⟩, 0⟩ intervalUniverse = some 1 ∧
    c9Boundary ⟨⟨0,0,0⟩, ⟨0,0,1⟩, 0⟩ ⟨FExt.fin (1 + 1/10000), FExt.pinf⟩ = some 3 :=
  ⟨constant_medium_zero_density_none (FExt.fin (-1))
      (by norm_num [FExt.blt]) 1 c9Boundary ⟨⟨0,0,0⟩, ⟨0,0,1⟩, 0⟩ ⟨FExt.fin 0, FExt.pinf⟩,
   rfl, rfl⟩

/-!  Characterization of `listMin`, `candsIn`, `minCand`. -/

lemma length_insertByKey (key : Prim → ℚ) (p : Prim) : ∀ l : List Prim,
    (insertByKey key p l).length = l.length + 1 := by
  intro l
  induction l with
  | nil => rfl
  | cons q rest ih =>
    simp only [insertByKey]
    split_ifs with h
    · rfl
    · simp [List.length_cons, ih]

lemma length_sortByKey (key : Prim → ℚ) : ∀ l : List Prim,
    (sortByKey key l).length = l.length := by
  intro l
  induction l with
  | nil => rfl
  | cons p rest ih =>
    rw [show sortByKey key (p :: rest) = insertByKey key p (sortByKey key rest) from rfl]
    rw [length_insertByKey, ih, List.length_cons]

/-!  Soundness of `Bvh::hit` against the nearest-candidate specification. -/

lemma bvhFromFuel_nil : ∀ fuel : ℕ, bvhFromFuel fuel ([] : List Prim) = none := by
  intro fuel
  induction fuel with
  | zero => rfl
  | succ fuel ih => simp [bvhFromFuel, sortByKey, ih]

/-- C10: `Bvh::from` terminates on every non-empty list — with fuel at
least the list length the fuel never runs out (single- and two-element
lists return directly, longer lists split into two strictly shorter
non-empty halves); on the empty list the recursion never reaches a base
case (the model returns `none` for every fuel); and the midpoint split of a
sorted list of length ≥ 3 indeed produces two strictly shorter, non-empty
sublists. -/
theorem bvh_from_terminates :
    (∀ (l : List Prim) (fuel : ℕ), l ≠ [] → l.length ≤ fuel →
      (bvhFromFuel fuel l).isSome = true) ∧
    (∀ fuel : ℕ, bvhFromFuel fuel ([] : List Prim) = none) ∧
    (∀ (l : List Prim) (key : Prim → ℚ), 3 ≤ l.length →
      0 < ((sortByKey key l).take ((sortByKey key l).length / 2)).length ∧
      ((sortByKey key l).take ((sortByKey key l).length / 2)).length < l.length ∧
      0 < ((sortByKey key l).drop ((sortByKey key l).length / 2)).length ∧
      ((sortByKey key l).drop ((sortByKey key l).length / 2)).length < l.length) := by
  refine ⟨?_, bvhFromFuel_nil, ?_⟩
  · intro l fuel
    induction fuel generalizing l with
    | zero =>
      intro hne hlen
      rcases l with _ | ⟨p, rest⟩
      · exact absurd rfl hne
      · simp at hlen
    | succ fuel ih =>
      intro hne hlen
      rcases l with _ | ⟨p, _ | ⟨q, _ | ⟨s, rest⟩⟩⟩
      · exact absurd rfl hne
      · simp [bvhFromFuel]
      · simp [bvhFromFuel]
      · have hlen' : rest.length + 3 ≤ fuel + 1 := by simpa using hlen
        simp only [bvhFromFuel]
        have hslen : (sortByKey
            (fun mesh =>
              (axisGet mesh.bbox (longestAxis (foldMerge (p :: q :: s :: rest)))).start)
            (p :: q :: s :: rest)).length = rest.length + 3 := by
          rw [length_sortByKey]
          simp
        have htk := List.length_take ((sortByKey
            (fun mesh =>
              (axisGet mesh.bbox (longestAxis (foldMerge (p :: q :: s :: rest)))).start)
            (p :: q :: s :: rest)).length / 2) (sortByKey
            (fun mesh =>
              (axisGet mesh.bbox (longestAxis (foldMerge (p :: q :: s :: rest)))).start)
            (p :: q :: s :: rest))
        have hdr := List.length_drop ((sortByKey
            (fun mesh =>
              (axisGet mesh.bbox (longestAxis (foldMerge (p :: q :: s :: rest)))).start)
            (p :: q :: s :: rest)).length / 2) (sortByKey
            (fun mesh =>
              (axisGet mesh.bbox (longestAxis (foldMerge (p :: q :: s :: rest)))).start)
            (p :: q :: s :: rest))
        rw [hslen] at htk hdr
        obtain ⟨L, hL⟩ := Option.isSome_iff_exists.mp (ih _
          (List.length_pos.mp (by rw [htk]; omega)) (by rw [htk]; omega))
        obtain ⟨R, hR⟩ := Option.isSome_iff_exists.mp (ih _
          (List.length_pos.mp (by rw [hdr]; omega)) (by rw [hdr]; omega))
        rw [hslen, hL, hR]
        rfl
  · intro l key h3
    have hsl : (sortByKey key l).length = l.length := length_sortByKey key l
    have h1 := List.length_take ((sortByKey key l).length / 2) (sortByKey key l)
    have h2 := List.length_drop ((sortByKey key l).length / 2) (sortByKey key l)
    refine ⟨?_, ?_, ?_, ?_⟩ <;> omega

/-- C10 witness: fuel 1 suffices for the one-element list. -/
theorem bvh_from_terminates_witness :
    (bvhFromFuel 1 [primNoCand]).isSome = true :=
  bvh_from_terminates.1 [primNoCand] 1 (by simp) (by simp)
